import Mathlib

/-!
Verification development for the `native_plants` trait-normalization and
filter-index pipeline (scripts/build_traits_normalized.py and
scripts/build_filter_index.py).  Python functions are shallowly embedded as
executable Lean definitions; strings are Lean `String`s, Python `None` is
`Option.none`, timestamps are `Nat`.
-/

namespace NativePlants

/-- Python whitespace characters recognised by `str.split()` / `str.strip()`
(ASCII subset; the source data is ASCII). -/
def pySpace (c : Char) : Bool :=
  c == ' ' || c == '\t' || c == '\n' || c == '\r' || c == '\x0b' || c == '\x0c'

/-- `str.split()` with no separator: split on runs of whitespace, dropping
empty pieces.  Accumulator holds the current word reversed. -/
def pyWordsAux : List Char → List Char → List (List Char)
  | [], acc => if acc.isEmpty then [] else [acc.reverse]
  | c :: rest, acc =>
    if pySpace c then
      if acc.isEmpty then pyWordsAux rest [] else acc.reverse :: pyWordsAux rest []
    else pyWordsAux rest (c :: acc)

def pyWords (s : String) : List String :=
  (pyWordsAux s.toList []).map List.asString

/-- Join character-list words with single space separators (`" ".join`). -/
def joinWordsCh : List (List Char) → List Char
  | [] => []
  | [w] => w
  | w :: ws => w ++ ' ' :: joinWordsCh ws

/-- Python `" ".join(value.split())`. -/
def collapseWs (s : String) : String :=
  (joinWordsCh (pyWordsAux s.toList [])).asString

/-- Python `str.strip()` (strip whitespace from both ends). -/
def pyStrip (s : String) : String :=
  ((s.toList.dropWhile (pySpace ·)).reverse.dropWhile (pySpace ·)).reverse.asString

/-- Python `str.lower()` (ASCII). -/
def pyLower (s : String) : String :=
  (s.toList.map Char.toLower).asString

/-- Python truthiness of an optional string: `None` and `""` are falsy. -/
def pyTruthy : Option String → Bool
  | none => false
  | some s => !s.isEmpty

/-- Python `str.title()` (ASCII): a cased character after a non-cased one is
uppercased, other cased characters are lowercased. -/
def pyTitleAux : List Char → Bool → List Char
  | [], _ => []
  | c :: rest, prevCased =>
    if c.isAlpha then
      (if prevCased then c.toLower else c.toUpper) :: pyTitleAux rest true
    else
      c :: pyTitleAux rest false

def pyTitle (s : String) : String :=
  (pyTitleAux s.toList false).asString

/-- Python `str.startswith(w)` on `s`. -/
def pyStartsWith (s w : String) : Bool :=
  w.toList.isPrefixOf s.toList

/-- Python `needle in haystack` for strings (substring containment). -/
def pyContains (haystack needle : String) : Bool :=
  haystack.toList.tails.any (fun t => needle.toList.isPrefixOf t)

namespace BuildTraits
/-! Embeddings from `scripts/build_traits_normalized.py`. -/

/-- `normalize_yes_no` (build_traits_normalized.py lines 64-72).
Note the source does NOT lower-case: it collapses whitespace and checks
`v.startswith("yes")` / `v.startswith("no")` on the text as-is, returning
Python `None` (here `Option.none`) when neither prefix matches. -/
def normalize_yes_no (value : Option String) : Option String :=
  if !pyTruthy value then some "Unknown"
  else
    let v := pyStrip (collapseWs (value.getD ""))
    if pyStartsWith v "yes" then some "Yes"
    else if pyStartsWith v "no" then some "No"
    else none

/-- Allowed-set literal of `normalize_enum` (build_traits_normalized.py
lines 78-88); "Moderate" appears twice in the source set literal. -/
def traitsEnumAllowed : List String :=
  ["Early Spring", "Spring", "Mid Spring", "Late Spring",
   "Early Summer", "Summer", "Mid Summer", "Late Summer",
   "Early Fall", "Fall", "Mid Fall", "Late Fall",
   "Early Winter", "Winter", "Mid Winter", "Late Winter",
   "None", "Slight", "Moderate", "High",
   "Slow", "Moderate", "Rapid",
   "Low", "Medium",
   "Short", "Long",
   "Blue", "Brown", "Green",
   "Orange", "Purple", "Red",
   "White", "Yellow"]

/-- `normalize_enum` (build_traits_normalized.py lines 74-89):
whitespace-collapse, `.title()`, membership test in the allowed set. -/
def normalize_enum (value : Option String) : String :=
  if !pyTruthy value then "Unknown"
  else
    let v := pyTitle (pyStrip (collapseWs (value.getD "")))
    if traitsEnumAllowed.contains v then v else "Unknown"

/-- Leftmost match of the source regex `(-?d+)` — note the missing backslash
in the source: it matches an optional `-` followed by literal `d`
characters, not digits.  Python `re.search` semantics: earliest start wins;
`-?` participates only when a `d` follows. -/
def reSearchDashD : List Char → Option (List Char)
  | [] => none
  | '-' :: rest =>
    match rest with
    | 'd' :: rest2 => some ('-' :: 'd' :: rest2.takeWhile (· == 'd'))
    | _ => reSearchDashD rest
  | 'd' :: rest => some ('d' :: rest.takeWhile (· == 'd'))
  | _ :: rest => reSearchDashD rest

/-- `normalize_number` (build_traits_normalized.py lines 91-98):
collapse whitespace, then `re.search(r"(-?d+)", v)` and return group 1. -/
def normalize_number (value : Option String) : Option String :=
  if !pyTruthy value then none
  else
    let v := pyStrip (collapseWs (value.getD ""))
    (reSearchDashD v.toList).map List.asString

end BuildTraits

namespace BuildFilter
/-! Embeddings from `scripts/build_filter_index.py`. -/

/-- `normalize_enum` (build_filter_index.py lines 66-70): whitespace-collapse
only — no `.title()`, no lower-casing — then verbatim membership test. -/
def normalize_enum (value : Option String) (allowed : List String) : String :=
  if !pyTruthy value then "Unknown"
  else
    let v := pyStrip (collapseWs (value.getD ""))
    if allowed.contains v then v else "Unknown"

/-- `normalize_moisture_use` (build_filter_index.py lines 72-75). -/
def normalize_moisture_use (value : Option String) : String :=
  normalize_enum value ["Low", "Medium", "High"]

/-- `normalize_bloom_period` (build_filter_index.py lines 77-83). -/
def normalize_bloom_period (value : Option String) : String :=
  normalize_enum value
    ["Early Spring", "Spring", "Mid Spring", "Late Spring",
     "Early Summer", "Summer", "Mid Summer", "Late Summer",
     "Early Fall", "Fall", "Mid Fall", "Late Fall",
     "Early Winter", "Winter", "Mid Winter", "Late Winter"]

/-- `normalize_shade_tolerance` (build_filter_index.py lines 85-88). -/
def normalize_shade_tolerance (value : Option String) : String :=
  normalize_enum value ["Tolerant", "Intermediate", "Intolerant"]

/-- `normalize_duration_primary` (build_filter_index.py lines 90-100). -/
def normalize_duration_primary (duration_raw : Option String) : String :=
  if !pyTruthy duration_raw then "Unknown"
  else
    let txt := pyLower (duration_raw.getD "")
    if pyContains txt "perennial" then "Perennial"
    else if pyContains txt "biennial" then "Biennial"
    else if pyContains txt "annual" then "Annual"
    else "Unknown"

/-- `split_duration_set` (build_filter_index.py lines 102-113); the Python
set is modelled as the list of members added, in source order. -/
def split_duration_set (duration_raw : Option String) : List String :=
  if !pyTruthy duration_raw then []
  else
    let txt := pyLower (duration_raw.getD "")
    (if pyContains txt "perennial" then ["Perennial"] else []) ++
    (if pyContains txt "biennial" then ["Biennial"] else []) ++
    (if pyContains txt "annual" then ["Annual"] else [])

/-- `is_shade_tolerant` (build_filter_index.py lines 115-116). -/
def is_shade_tolerant (shade_enum : String) : Nat :=
  if shade_enum = "Tolerant" ∨ shade_enum = "Intermediate" then 1 else 0

/-- `normalize_unknown` (build_filter_index.py lines 166-177):
whitespace-collapse AND lower-case, then prefix / short-form checks. -/
def normalize_unknown (value : Option String) : String :=
  if !pyTruthy value then "Unknown"
  else
    let v := pyLower (pyStrip (collapseWs (value.getD "")))
    if pyStartsWith v "yes" || v ∈ ["y", "true", "t", "1"] then "Yes"
    else if pyStartsWith v "no" || v ∈ ["n", "false", "f", "0"] then "No"
    else "Unknown"

/-- `normalize_seasonal_interest` (build_filter_index.py lines 179-187).
The source calls `family.removeprefix("x")` but DISCARDS the result
(strings are immutable and the return value is not bound), so no prefix is
stripped here.  `family.split()[0]` raises IndexError on whitespace-only
input, modelled as `none`. -/
def normalize_seasonal_interest (family : Option String) : Option String :=
  if !pyTruthy family then some "Unknown"
  else
    match pyWords (family.getD "") with
    | [] => none
    | w :: _ =>
      let v := pyLower (pyStrip w)
      if v ∈ ["arecaceae", "taxaceae", "araucariaceae", "podocarpaceae"]
      then some "Yes" else some "Unknown"

/-- `showy_bloomer` (build_filter_index.py lines 196-202); the implicit
fall-through returns Python `None`, modelled as `Option.none`. -/
def showy_bloomer (v : String) : Option Nat :=
  if v = "Yes" then some 1
  else if v = "No" then some 0
  else if v = "Unknown" then some 2
  else none

/-- `fall_interest` (build_filter_index.py lines 205-211). -/
def fall_interest (v : String) : Option Nat :=
  if v = "Yes" then some 1
  else if v = "No" then some 0
  else if v = "Unknown" then some 2
  else none

/-- `evergreen` (build_filter_index.py lines 213-219). -/
def evergreen (v : String) : Option Nat :=
  if v = "Yes" then some 1
  else if v = "No" then some 0
  else if v = "Unknown" then some 2
  else none

end BuildFilter

/-! ## Latest-value resolvers (SQL window queries) -/

/-- A raw row of `plant_characteristics_kv`: `trait_value` may be SQL NULL,
`fetched_at` is a timestamp modelled as `Nat`. -/
structure Obs where
  trait_name : String
  trait_value : Option String
  «section» : String
  fetched_at : Nat
deriving DecidableEq, Repr

/-- MySQL `TRIM` (removes leading/trailing space characters only). -/
def sqlTrim (s : String) : String :=
  ((s.toList.dropWhile (· == ' ')).reverse.dropWhile (· == ' ')).reverse.asString

/-- MySQL `NULLIF(TRIM(trait_value), '') IS NULL`: the value is NULL or
blank after trimming. -/
def isNullOrBlank : Option String → Bool
  | none => true
  | some s => sqlTrim s == ""

def b2n (b : Bool) : Nat := if b then 1 else 0

/-- Strict lexicographic order on rank triples; a larger rank means the row
sorts earlier under the SQL `ORDER BY` and wins the top-1 selection. -/
def keyLtB (a b : Nat × Nat × Nat) : Bool :=
  decide (a.1 < b.1) ||
    (decide (a.1 = b.1) &&
      (decide (a.2.1 < b.2.1) ||
        (decide (a.2.1 = b.2.1) && decide (a.2.2 < b.2.2))))

/-- Top-1 selection of `ROW_NUMBER() OVER (... ORDER BY rank DESC)`: return
a rank-maximal element of the list (on rank ties the earlier row is kept;
the SQL leaves tie order unspecified, so this fixes one deterministic
choice). -/
def pickBest (key : Obs → Nat × Nat × Nat) : List Obs → Option Obs
  | [] => none
  | o :: rest =>
    match pickBest key rest with
    | none => some o
    | some b => if keyLtB (key o) (key b) then some b else some o

/-- Rank of `fetch_latest_kv` (build_traits_normalized.py lines 141-147):
`(section = 'Direct Trait Lookup') DESC`, then
`(NULLIF(TRIM(trait_value),'') IS NULL) ASC`, then `fetched_at DESC`. -/
def keyTraits (o : Obs) : Nat × Nat × Nat :=
  (b2n (o.«section» == "Direct Trait Lookup"), b2n (!isNullOrBlank o.trait_value),
   o.fetched_at)

/-- Rank of `fetch_latest_kv_map` (build_filter_index.py lines 123-125):
only `(NULLIF(TRIM(trait_value),'') IS NULL) ASC`, then `fetched_at DESC` —
there is NO section criterion in this query. -/
def keyMap (o : Obs) : Nat × Nat × Nat :=
  (0, b2n (!isNullOrBlank o.trait_value), o.fetched_at)

/-- `fetch_latest_kv` (build_traits_normalized.py lines 123-163), resolved
for one requested trait name: rows of the store with that `trait_name`
(and the name among the requested ones) ranked by `keyTraits`, top row
returned. -/
def fetch_latest_kv (obs : List Obs) (trait_names : List String) (t : String) :
    Option Obs :=
  if trait_names.contains t then
    pickBest keyTraits (obs.filter (fun o => o.trait_name == t))
  else none

/-- The fixed `trait_name IN (...)` list of `fetch_latest_kv_map`
(build_filter_index.py lines 129-131). -/
def filterIndexTraitNames : List String :=
  ["Group", "Duration", "Growth Habits", "Native Status",
   "Fall Conspicuous", "Leaf Retention", "Flower Conspicuous",
   "Shade Tolerance", "Moisture Use", "Bloom Period", "Family"]

/-- `fetch_latest_kv_map` (build_filter_index.py lines 118-138), resolved
for one trait name of its fixed IN-list, ranked by `keyMap`. -/
def fetch_latest_kv_map (obs : List Obs) (t : String) : Option Obs :=
  if filterIndexTraitNames.contains t then
    pickBest keyMap (obs.filter (fun o => o.trait_name == t))
  else none

/-! ## Keyed tables and upserts

A persisted table is an association list of (key, row); `upsertRow` is the
`INSERT ... ON DUPLICATE KEY UPDATE` of `upsert_trait` and
`upsert_filter_index`: overwrite the row of an existing key in place,
append a fresh key at the end. -/

def upsertRow {κ ρ : Type} [DecidableEq κ] (k : κ) (r : ρ) :
    List (κ × ρ) → List (κ × ρ)
  | [] => [(k, r)]
  | e :: rest => if e.1 = k then (k, r) :: rest else e :: upsertRow k r rest

def lookupRow {κ ρ : Type} [DecidableEq κ] (k : κ) : List (κ × ρ) → Option ρ
  | [] => none
  | e :: rest => if e.1 = k then some e.2 else lookupRow k rest

def tableKeys {κ ρ : Type} (tbl : List (κ × ρ)) : List κ :=
  tbl.map Prod.fst

/-- Run a list of upserts left to right (the per-symbol upsert loop). -/
def runUpserts {κ ρ : Type} [DecidableEq κ] (es : List (κ × ρ))
    (tbl : List (κ × ρ)) : List (κ × ρ) :=
  es.foldl (fun t e => upsertRow e.1 e.2 t) tbl

/-- The last row value a list of upserts writes under key `k`, if any. -/
def lastEntry {κ ρ : Type} [DecidableEq κ] (k : κ) : List (κ × ρ) → Option ρ
  | [] => none
  | e :: es =>
    match lastEntry k es with
    | some r => some r
    | none => if e.1 = k then some e.2 else none

/-! ## build_traits_normalized: per-symbol derivation (main, lines 234-258) -/

/-- A row of `plant_traits_normalized` minus its key `(symbol, trait_key)`. -/
structure NormRow where
  trait_value : String
  value_type : String
  source_system : String
  trait_name_raw : Option String
  trait_value_raw : Option String
  last_computed_at : Nat
deriving DecidableEq, Repr

/-- The non-timestamp fields of a `NormRow` (what idempotence preserves). -/
def NormRow.stripTime (r : NormRow) :
    String × String × String × Option String × Option String :=
  (r.trait_value, r.value_type, r.source_system, r.trait_name_raw,
   r.trait_value_raw)

def mkNormRow (vals : String × String × String × Option String × Option String)
    (now : Nat) : NormRow :=
  ⟨vals.1, vals.2.1, vals.2.2.1, vals.2.2.2.1, vals.2.2.2.2, now⟩

/-- Tags for the three normalizer functions referenced by `TRAIT_MAP`. -/
inductive NormTag | yesNo | enum | number
deriving DecidableEq, Repr

def applyNorm : NormTag → Option String → Option String
  | .yesNo, v => BuildTraits.normalize_yes_no v
  | .enum, v => some (BuildTraits.normalize_enum v)
  | .number, v => BuildTraits.normalize_number v

/-- `TRAIT_MAP` (build_traits_normalized.py lines 179-214):
raw trait_name → (trait_key, normalizer, value_type), in source order. -/
def TRAIT_MAP : List (String × String × NormTag × String) :=
  [("Flower Color", ("bloom_color", (.enum, "enum"))),
   ("Hedge Tolerance", ("hedge_tolerance", (.enum, "enum"))),
   ("Height, Mature (feet)", ("height_mature", (.number, "number"))),
   ("Height at 20 Years, Maximum (feet)", ("height_20yr", (.number, "number"))),
   ("Vegetative Spread Rate", ("colonizing", (.enum, "enum"))),
   ("Seed Spread Rate", ("reseeding", (.enum, "enum"))),
   ("Propagated by Corm", ("corms", (.enum, "bool"))),
   ("Propagated by Sprigs", ("sprigs", (.enum, "bool"))),
   ("Propagated by Tubers", ("tubers", (.enum, "bool"))),
   ("Palatable Human", ("palatable_human", (.yesNo, "bool"))),
   ("Palatable Browse Animal", ("palatable_browse_animal", (.enum, "enum"))),
   ("Palatable Graze Animal", ("palatable_graze_animal", (.enum, "enum"))),
   ("Fruit/Seed Period Begin", ("fruit_ready", (.enum, "enum"))),
   ("Toxicity", ("toxicity", (.enum, "bool"))),
   ("Adapted to Coarse Textured Soils", ("soil_sand", (.yesNo, "bool"))),
   ("Adapted to Medium Textured Soils", ("soil_loam", (.yesNo, "bool"))),
   ("Adapted to Fine Textured Soils", ("soil_clay", (.yesNo, "bool"))),
   ("Salinity Tolerance", ("salinity", (.enum, "enum"))),
   ("Temperature, Minimum (Â°F)", ("min_temp", (.number, "number"))),
   ("Frost Free Days, Minimum", ("min_frost", (.number, "number"))),
   ("Cold Stratification Required", ("cold_req", (.yesNo, "bool")))]

def source_system : String := "USDA_SELENIUM_BS4"

/-- The value fields of the upserts the trait loop performs for one symbol.
`kv` models the dict returned by `fetch_latest_kv`: `none` when the raw
name is absent (`if not row: continue`), otherwise the possibly-NULL
`trait_value`.  A normalizer result that is Python-falsy (`None` or `""`)
skips the write (`if not normalized: continue`). -/
def traitEntriesCore (symbol : String) (kv : String → Option (Option String)) :
    List ((String × String) ×
      (String × String × String × Option String × Option String)) :=
  TRAIT_MAP.filterMap (fun e =>
    let rawName := e.1
    let traitKey := e.2.1
    let tag := e.2.2.1
    let valueType := e.2.2.2
    match kv rawName with
    | none => none
    | some rawVal =>
      match applyNorm tag rawVal with
      | none => none
      | some nv =>
        if nv.isEmpty then none
        else some ((symbol, traitKey),
          (nv, valueType, source_system, some rawName, rawVal)))

/-- The upsert list of one pass of the trait loop: the value fields with
the run timestamp `now` attached (`last_computed_at`). -/
def traitEntries (symbol : String) (kv : String → Option (Option String))
    (now : Nat) : List ((String × String) × NormRow) :=
  (traitEntriesCore symbol kv).map (fun e => (e.1, mkNormRow e.2 now))

/-- One pass of build_traits_normalized's per-symbol loop over the
`plant_traits_normalized` table. -/
def processSymbolTraits (symbol : String) (kv : String → Option (Option String))
    (now : Nat) (tbl : List ((String × String) × NormRow)) :
    List ((String × String) × NormRow) :=
  runUpserts (traitEntries symbol kv now) tbl

/-! ## build_filter_index: per-symbol derivation (main, lines 376-436) -/

/-- Display fields from `canonical_plants` (get_canonical_fields). -/
structure Canonical where
  preferred_common_name : Option String
  scientific_name_with_author : Option String
  family : Option String
deriving DecidableEq, Repr

/-- A row of `plant_filter_index` minus its key `symbol` and minus
`last_indexed_at`. -/
structure FilterCore where
  preferred_common_name : Option String
  scientific_name_with_author : Option String
  family : Option String
  plant_group : Option String
  growth_habits_raw : Option String
  native_status_raw : Option String
  duration_raw : Option String
  duration_primary : String
  shade_tolerance : String
  moisture_use : String
  bloom_period : String
  is_shade_tolerant : Nat
  has_profile_kv : Nat
  has_characteristics_kv : Nat
  flower_conspicuous : String
  fall_conspicuous : String
  is_showy_bloomer : Option Nat
  has_fall_interest : Option Nat
  is_evergreen : Option Nat
deriving DecidableEq, Repr

/-- A full `plant_filter_index` row: value fields plus `last_indexed_at`. -/
structure FilterRow where
  core : FilterCore
  last_indexed_at : Nat
deriving DecidableEq, Repr

/-- The per-symbol field computation of build_filter_index's main loop
(lines 380-435).  `kv` models the dict of `fetch_latest_kv_map` via
`.get`, which conflates an absent key and a NULL value into Python `None`.
The local `family = normalize_seasonal_interest(kv.get("Family"))` of the
source is computed but never passed to `upsert_filter_index`, so it does
not appear in the record. -/
def deriveFilterCore (canonical : Canonical) (kv : String → Option String)
    (hasProfileKv hasCharacteristicsKv : Nat) : FilterCore :=
  let plant_group := kv "Group"
  let growth_habits_raw := kv "Growth Habits"
  let native_status_raw := kv "Native Status"
  let duration_raw := kv "Duration"
  let duration_primary := BuildFilter.normalize_duration_primary duration_raw
  let shade_tolerance := BuildFilter.normalize_shade_tolerance (kv "Shade Tolerance")
  let moisture_use := BuildFilter.normalize_moisture_use (kv "Moisture Use")
  let bloom_period := BuildFilter.normalize_bloom_period (kv "Bloom Period")
  let shade_tolerant := BuildFilter.is_shade_tolerant shade_tolerance
  let flower_conspicuous := BuildFilter.normalize_unknown (kv "Flower Conspicuous")
  let fall_conspicuous := BuildFilter.normalize_unknown (kv "Fall Conspicuous")
  let leaf_retention := BuildFilter.normalize_unknown (kv "Leaf Retention")
  { preferred_common_name := canonical.preferred_common_name
    scientific_name_with_author := canonical.scientific_name_with_author
    family := canonical.family
    plant_group := plant_group
    growth_habits_raw := growth_habits_raw
    native_status_raw := native_status_raw
    duration_raw := duration_raw
    duration_primary := duration_primary
    shade_tolerance := shade_tolerance
    moisture_use := moisture_use
    bloom_period := bloom_period
    is_shade_tolerant := shade_tolerant
    has_profile_kv := hasProfileKv
    has_characteristics_kv := hasCharacteristicsKv
    flower_conspicuous := flower_conspicuous
    fall_conspicuous := fall_conspicuous
    is_showy_bloomer := BuildFilter.showy_bloomer flower_conspicuous
    has_fall_interest := BuildFilter.fall_interest fall_conspicuous
    is_evergreen := BuildFilter.evergreen leaf_retention }

/-- One pass of build_filter_index's per-symbol loop over the
`plant_filter_index` table (the `upsert_filter_index` call). -/
def processSymbolFilter (symbol : String) (canonical : Canonical)
    (kv : String → Option String) (hasProfileKv hasCharacteristicsKv : Nat)
    (now : Nat) (tbl : List (String × FilterRow)) : List (String × FilterRow) :=
  upsertRow symbol
    ⟨deriveFilterCore canonical kv hasProfileKv hasCharacteristicsKv, now⟩ tbl

/-! ## Batch drivers: commit points -/

/-- The 1-based loop indices at which build_traits_normalized's driver
commits (line 260: `if i % commit_every == 25`), for `n` symbols and
commit batch size `N`; the final commit (line 263) is unconditional and
separate. -/
def traitsCommitSchedule (n N : Nat) : List Nat :=
  (((List.range n).map (· + 1)).filter (fun i => i % N == 25))

/-- The 1-based loop indices at which build_filter_index's driver commits
(line 443: `if i % args.commit_every == 0`); the final commit (line 446)
is unconditional and separate. -/
def filterCommitSchedule (n N : Nat) : List Nat :=
  (((List.range n).map (· + 1)).filter (fun i => i % N == 0))

/-! ## Spec-side definitions (from the spec's words, for refinement) -/

/-- Modelled from the spec: the yes/no normalizer as §4.2 words it —
"case-insensitive, whitespace-collapsed; returns Yes if the text starts
with yes (or recognized short forms y/true/t/1), No for analogous
no-forms, otherwise Unknown". -/
def specYesNoNormalizer (value : Option String) : String :=
  match value with
  | none => "Unknown"
  | some s =>
    let w := pyLower (collapseWs s)
    if pyStartsWith w "yes" || w ∈ ["y", "true", "t", "1"] then "Yes"
    else if pyStartsWith w "no" || w ∈ ["n", "false", "f", "0"] then "No"
    else "Unknown"

/-! ## Concrete fixtures used by counterexamples and witnesses -/

/-- An old observation in the direct-lookup section. -/
def obsDirectOld : Obs :=
  ⟨"Duration", some "old", "Direct Trait Lookup", 1⟩

/-- A newer observation in an ordinary section. -/
def obsOtherNew : Obs :=
  ⟨"Duration", some "new", "Characteristics", 2⟩

/-- A resolved-trait map holding only a "Family" value. -/
def kvFamilyTaxaceae : String → Option String :=
  fun k => if k = "Family" then some "Taxaceae" else none

/-- The empty resolved-trait map. -/
def kvEmpty : String → Option String := fun _ => none

/-- Empty canonical display fields. -/
def canonicalEmpty : Canonical := ⟨none, none, none⟩

/-- A sample resolved dict for the trait loop: one Flower Color value. -/
def kvTraitsSample : String → Option (Option String) :=
  fun n => if n = "Flower Color" then some (some "blue") else none

/-! # Theorems -/

/-! ## Structural lemmas about whitespace collapsing -/

theorem pyWordsAux_words (l : List Char) :
    ∀ acc : List Char, (∀ c ∈ acc, pySpace c = false) →
    ∀ w ∈ pyWordsAux l acc, w ≠ [] ∧ ∀ c ∈ w, pySpace c = false := by
  induction l with
  | nil =>
    intro acc hacc w hw
    simp only [pyWordsAux] at hw
    split at hw
    · simp at hw
    · rename_i hne
      simp only [List.mem_singleton] at hw
      subst hw
      refine ⟨?_, ?_⟩
      · simp only [ne_eq, List.reverse_eq_nil_iff]
        intro h
        subst h
        simp at hne
      · intro c hc
        exact hacc c (List.mem_reverse.mp hc)
  | cons c rest ih =>
    intro acc hacc w hw
    simp only [pyWordsAux] at hw
    by_cases hc : pySpace c
    · rw [if_pos hc] at hw
      split at hw
      · exact ih [] (by simp) w hw
      · rename_i hne
        rcases List.mem_cons.mp hw with h | h
        · subst h
          refine ⟨?_, ?_⟩
          · simp only [ne_eq, List.reverse_eq_nil_iff]
            intro h
            subst h
            simp at hne
          · intro d hd
            exact hacc d (List.mem_reverse.mp hd)
        · exact ih [] (by simp) w h
    · rw [if_neg hc] at hw
      refine ih (c :: acc) ?_ w hw
      intro d hd
      rcases List.mem_cons.mp hd with h | h
      · subst h
        exact Bool.not_eq_true _ ▸ (by simpa using hc)
      · exact hacc d h

theorem joinWordsCh_ne_nil (w : List Char) (ws : List (List Char))
    (hw : w ≠ []) : joinWordsCh (w :: ws) ≠ [] := by
  cases ws with
  | nil => simpa [joinWordsCh] using hw
  | cons w2 ws2 =>
    simp only [joinWordsCh, ne_eq, List.append_eq_nil]
    intro h
    exact hw h.1

theorem joinWordsCh_head (ws : List (List Char))
    (h : ∀ w ∈ ws, w ≠ [] ∧ ∀ c ∈ w, pySpace c = false) :
    ∀ c t, joinWordsCh ws = c :: t → pySpace c = false := by
  induction ws with
  | nil => intro c t hct; simp [joinWordsCh] at hct
  | cons w ws ih =>
    intro c t hct
    cases ws with
    | nil =>
      simp only [joinWordsCh] at hct
      exact (h w (by simp)).2 c (hct ▸ List.mem_cons_self c t)
    | cons w2 ws2 =>
      simp only [joinWordsCh] at hct
      have hw := h w (by simp)
      cases w with
      | nil => exact absurd rfl hw.1
      | cons cw tw =>
        simp only [List.cons_append, List.cons.injEq] at hct
        exact hct.1 ▸ hw.2 cw (by simp)

theorem joinWordsCh_last (ws : List (List Char))
    (h : ∀ w ∈ ws, w ≠ [] ∧ ∀ c ∈ w, pySpace c = false) :
    ∀ c t, (joinWordsCh ws).reverse = c :: t → pySpace c = false := by
  induction ws with
  | nil => intro c t hct; simp [joinWordsCh] at hct
  | cons w ws ih =>
    intro c t hct
    cases ws with
    | nil =>
      simp only [joinWordsCh] at hct
      have : c ∈ w.reverse := hct ▸ List.mem_cons_self c t
      exact (h w (by simp)).2 c (List.mem_reverse.mp this)
    | cons w2 ws2 =>
      simp only [joinWordsCh, List.reverse_append, List.reverse_cons] at hct
      have hJ : joinWordsCh (w2 :: ws2) ≠ [] :=
        joinWordsCh_ne_nil w2 ws2 (h w2 (by simp)).1
      have hJr : (joinWordsCh (w2 :: ws2)).reverse ≠ [] := by
        simpa using hJ
      rcases hr : (joinWordsCh (w2 :: ws2)).reverse with _ | ⟨cr, tr⟩
      · exact absurd hr hJr
      · rw [hr] at hct
        simp only [List.cons_append, List.cons.injEq] at hct
        have := ih (fun w hw => h w (by simp [hw])) cr tr hr
        exact hct.1 ▸ this

theorem pyStrip_collapseWs (s : String) :
    pyStrip (collapseWs s) = collapseWs s := by
  unfold pyStrip collapseWs
  have hwords := pyWordsAux_words s.toList [] (by simp)
  set J := joinWordsCh (pyWordsAux s.toList []) with hJ
  have hto : (List.asString J).toList = J := rfl
  rw [hto]
  have h1 : J.dropWhile (fun c => pySpace c) = J := by
    cases hd : J with
    | nil => simp
    | cons c t =>
      rw [List.dropWhile_cons]
      have := joinWordsCh_head (pyWordsAux s.toList []) hwords c t hd
      simp [this]
  rw [h1]
  have h2 : J.reverse.dropWhile (fun c => pySpace c) = J.reverse := by
    cases hd : J.reverse with
    | nil => simp
    | cons c t =>
      rw [List.dropWhile_cons]
      have := joinWordsCh_last (pyWordsAux s.toList []) hwords c t hd
      simp [this]
  rw [h2, List.reverse_reverse]

/-! ## Lemmas about the rank order and top-1 selection -/

theorem keyLtB_irrefl (a : Nat × Nat × Nat) : keyLtB a a = false := by
  simp [keyLtB]

theorem keyLtB_asymm (a b : Nat × Nat × Nat) (h : keyLtB a b = true) :
    keyLtB b a = false := by
  simp only [keyLtB, Bool.or_eq_true, Bool.and_eq_true, decide_eq_true_eq] at h ⊢
  simp only [Bool.or_eq_false_iff, Bool.and_eq_false_iff, decide_eq_false_iff_not]
  omega

theorem keyLtB_negtrans (a b c : Nat × Nat × Nat) (hab : keyLtB a b = false)
    (hbc : keyLtB b c = false) : keyLtB a c = false := by
  simp only [keyLtB, Bool.or_eq_false_iff, Bool.and_eq_false_iff,
    decide_eq_false_iff_not] at hab hbc ⊢
  omega

theorem pickBest_eq_none (key : Obs → Nat × Nat × Nat) (l : List Obs)
    (h : pickBest key l = none) : l = [] := by
  cases l with
  | nil => rfl
  | cons o rest =>
    simp only [pickBest] at h
    split at h <;> simp_all
    split at h <;> simp_all

theorem pickBest_mem (key : Obs → Nat × Nat × Nat) (l : List Obs) (c : Obs)
    (h : pickBest key l = some c) : c ∈ l := by
  induction l generalizing c with
  | nil => simp [pickBest] at h
  | cons a rest ih =>
    simp only [pickBest] at h
    cases hp : pickBest key rest with
    | none =>
      simp only [hp] at h
      injection h with h
      subst h
      simp
    | some b =>
      simp only [hp] at h
      by_cases hlt : keyLtB (key a) (key b) = true
      · rw [if_pos hlt] at h
        injection h with h
        subst h
        exact List.mem_cons_of_mem a (ih _ hp)
      · rw [if_neg hlt] at h
        injection h with h
        subst h
        simp

theorem pickBest_max (key : Obs → Nat × Nat × Nat) (l : List Obs) (o : Obs)
    (ho : o ∈ l) :
    ∃ c, pickBest key l = some c ∧ c ∈ l ∧ keyLtB (key c) (key o) = false := by
  induction l with
  | nil => simp at ho
  | cons a rest ih =>
    cases hp : pickBest key rest with
    | none =>
      have hrest : rest = [] := pickBest_eq_none key rest hp
      subst hrest
      simp only [List.mem_singleton] at ho
      subst ho
      exact ⟨o, by simp [pickBest, hp], by simp, keyLtB_irrefl _⟩
    | some b =>
      have hbmem : b ∈ rest := pickBest_mem key rest b hp
      rcases List.mem_cons.mp ho with h | h
      · subst h
        by_cases hlt : keyLtB (key o) (key b) = true
        · exact ⟨b, by simp [pickBest, hp, hlt],
            List.mem_cons_of_mem _ hbmem, keyLtB_asymm _ _ hlt⟩
        · exact ⟨o, by simp [pickBest, hp, hlt], by simp, keyLtB_irrefl _⟩
      · rcases ih h with ⟨c, hc1, hc2, hc3⟩
        rw [hp] at hc1
        cases hc1
        by_cases hlt : keyLtB (key a) (key b) = true
        · exact ⟨b, by simp [pickBest, hp, hlt],
            List.mem_cons_of_mem _ hbmem, hc3⟩
        · refine ⟨a, by simp [pickBest, hp, hlt], by simp, ?_⟩
          exact keyLtB_negtrans _ _ _ (by simpa using hlt) hc3

/-! ## Lemmas about keyed tables and upserts -/

theorem lookupRow_upsertRow {κ ρ : Type} [DecidableEq κ] (k k' : κ) (r : ρ)
    (tbl : List (κ × ρ)) :
    lookupRow k (upsertRow k' r tbl) =
      if k' = k then some r else lookupRow k tbl := by
  induction tbl with
  | nil => simp [upsertRow, lookupRow]
  | cons e rest ih =>
    by_cases he : e.1 = k'
    · simp only [upsertRow, if_pos he, lookupRow]
      by_cases hk : k' = k
      · simp [hk]
      · have : ¬ e.1 = k := fun h => hk (he ▸ h)
        simp [hk, this]
    · simp only [upsertRow, if_neg he, lookupRow]
      by_cases hek : e.1 = k
      · have : ¬ k' = k := fun h => he (by rw [h, hek])
        simp [hek, this]
      · simp [hek, ih]

theorem tableKeys_upsertRow {κ ρ : Type} [DecidableEq κ] (k : κ) (r : ρ)
    (tbl : List (κ × ρ)) :
    tableKeys (upsertRow k r tbl) = tableKeys tbl ∨
      tableKeys (upsertRow k r tbl) = tableKeys tbl ++ [k] := by
  induction tbl with
  | nil => right; simp [upsertRow, tableKeys]
  | cons e rest ih =>
    by_cases he : e.1 = k
    · left; simp [upsertRow, if_pos he, tableKeys, he]
    · rcases ih with h | h
      · left; simp [upsertRow, if_neg he, tableKeys] at h ⊢; exact h
      · right; simp [upsertRow, if_neg he, tableKeys] at h ⊢; exact h

theorem mem_tableKeys_upsertRow {κ ρ : Type} [DecidableEq κ] (k k' : κ) (r : ρ)
    (tbl : List (κ × ρ)) :
    k' ∈ tableKeys (upsertRow k r tbl) ↔ k' ∈ tableKeys tbl ∨ k' = k := by
  induction tbl with
  | nil => simp [upsertRow, tableKeys]
  | cons e rest ih =>
    by_cases he : e.1 = k
    · simp only [upsertRow, if_pos he, tableKeys, List.map_cons, List.mem_cons]
      constructor
      · rintro (h | h)
        · right; exact h
        · left; right; exact h
      · rintro ((h | h) | h)
        · left; rw [he] at h; exact h
        · right; exact h
        · left; exact h
    · simp only [upsertRow, if_neg he, tableKeys, List.map_cons, List.mem_cons]
      simp only [tableKeys] at ih
      rw [ih]
      tauto

theorem nodup_tableKeys_upsertRow {κ ρ : Type} [DecidableEq κ] (k : κ) (r : ρ)
    (tbl : List (κ × ρ)) (h : (tableKeys tbl).Nodup) :
    (tableKeys (upsertRow k r tbl)).Nodup := by
  induction tbl with
  | nil => simp [upsertRow, tableKeys]
  | cons e rest ih =>
    simp only [tableKeys, List.map_cons, List.nodup_cons] at h
    by_cases he : e.1 = k
    · simp only [upsertRow, if_pos he, tableKeys, List.map_cons, List.nodup_cons]
      exact ⟨he ▸ h.1, h.2⟩
    · simp only [upsertRow, if_neg he, tableKeys, List.map_cons, List.nodup_cons]
      refine ⟨?_, ih h.2⟩
      intro hmem
      rcases (mem_tableKeys_upsertRow k e.1 r rest).mp hmem with hm | hm
      · exact h.1 hm
      · exact he hm

theorem lookupRow_runUpserts {κ ρ : Type} [DecidableEq κ]
    (es : List (κ × ρ)) (tbl : List (κ × ρ)) (k : κ) :
    lookupRow k (runUpserts es tbl) =
      match lastEntry k es with
      | some r => some r
      | none => lookupRow k tbl := by
  induction es generalizing tbl with
  | nil => simp [runUpserts, lastEntry]
  | cons e es ih =>
    have hstep : runUpserts (e :: es) tbl = runUpserts es (upsertRow e.1 e.2 tbl) := rfl
    rw [hstep, ih]
    cases hl : lastEntry k es with
    | some r => simp [lastEntry, hl]
    | none =>
      simp only [lastEntry, hl, lookupRow_upsertRow]
      by_cases he : e.1 = k <;> simp [he]

theorem nodup_tableKeys_runUpserts {κ ρ : Type} [DecidableEq κ]
    (es : List (κ × ρ)) (tbl : List (κ × ρ)) (h : (tableKeys tbl).Nodup) :
    (tableKeys (runUpserts es tbl)).Nodup := by
  induction es generalizing tbl with
  | nil => exact h
  | cons e es ih =>
    exact ih (upsertRow e.1 e.2 tbl) (nodup_tableKeys_upsertRow e.1 e.2 tbl h)

theorem lastEntry_map {κ ρ ρ2 : Type} [DecidableEq κ] (g : ρ → ρ2) (k : κ)
    (es : List (κ × ρ)) :
    lastEntry k (es.map (fun e => (e.1, g e.2))) = (lastEntry k es).map g := by
  induction es with
  | nil => simp [lastEntry]
  | cons e es ih =>
    simp only [List.map_cons, lastEntry, ih]
    cases lastEntry k es with
    | some r => simp
    | none => by_cases he : e.1 = k <;> simp [he]

/-! ## Range of the tri-state normalizer -/

theorem normalize_unknown_range (x : Option String) :
    BuildFilter.normalize_unknown x = "Yes" ∨
    BuildFilter.normalize_unknown x = "No" ∨
    BuildFilter.normalize_unknown x = "Unknown" := by
  simp only [BuildFilter.normalize_unknown]
  split_ifs <;> simp

/-! ## Claim theorems -/

/-- C2 (counterexample): the claim says both yes/no normalizers are
case-insensitive and recognize the short forms, returning "Yes" on "Yes"
and "true"; but `normalize_yes_no` in build_traits_normalized never
lower-cases and knows no short forms, so it falls through to `None` on
both, while `normalize_unknown` behaves as claimed. -/
theorem normalize_yes_no_case_sensitive_counterexample :
    BuildTraits.normalize_yes_no (some "Yes") = none ∧
    BuildTraits.normalize_yes_no (some "true") = none ∧
    BuildFilter.normalize_unknown (some "Yes") = "Yes" := by
  refine ⟨by decide, by decide, by decide⟩

/-- C2 (amended): the claimed case-insensitive, whitespace-collapsed
yes/no normalization — "Yes" on a "yes" prefix or the short forms
y/true/t/1, "No" on the analogous no-forms, otherwise "Unknown" — holds
for `normalize_unknown` (build_filter_index); `normalize_yes_no`
(build_traits_normalized) instead matches the prefixes case-sensitively,
recognizes no short forms and returns an absence marker on any other
non-empty input. -/
theorem yes_no_normalizer_spec_holds_for_normalize_unknown
    (v : Option String) :
    BuildFilter.normalize_unknown v = specYesNoNormalizer v := by
  cases v with
  | none => rfl
  | some s =>
    by_cases h : s = ""
    · subst h; rfl
    · have he : s.isEmpty = false := by
        cases hh : s.isEmpty with
        | false => rfl
        | true => exact absurd ((String.isEmpty_iff s).mp hh) h
      simp [BuildFilter.normalize_unknown, specYesNoNormalizer, pyTruthy,
        he, pyStrip_collapseWs]

/-- C3 (code bug): the numeric extractor's regex is written `(-?d+)` —
the backslash of `\d` is missing — so it matches literal `d` characters,
not digits: on "Between -10 and 20 °F" it returns "d" (from the `d` of
"and") instead of the claimed "-10", and even on the plain integer "-10"
it finds nothing. -/
theorem normalize_number_returns_literal_d :
    BuildTraits.normalize_number (some "Between -10 and 20 °F") = some "d" ∧
    BuildTraits.normalize_number (some "-10") = none := by
  refine ⟨by decide, by decide⟩

/-- C4 (counterexample): the claim says both enum normalizers title-case
the input, making the match case-insensitive; build_filter_index's
`normalize_enum` (here via `normalize_moisture_use`) compares verbatim, so
"low" yields "Unknown" even though "Low" is in its allowed set, while
build_traits_normalized's `normalize_enum` returns "Low" as claimed. -/
theorem filter_enum_normalizer_case_sensitive :
    BuildFilter.normalize_moisture_use (some "low") = "Unknown" ∧
    BuildTraits.normalize_enum (some "low") = "Low" := by
  refine ⟨by decide, by decide⟩

/-- C4 (amended): both enum normalizers return either "Unknown" or a member
of the allowed set; build_traits_normalized's `normalize_enum` compares the
whitespace-collapsed, title-cased input (case-insensitive, e.g. "low" and
"LOW" both yield "Low"), whereas build_filter_index's `normalize_enum`
compares the whitespace-collapsed input verbatim (case-sensitive). -/
theorem enum_normalizer_closure_and_title_case :
    (∀ v : Option String, BuildTraits.normalize_enum v = "Unknown" ∨
      BuildTraits.normalize_enum v ∈ BuildTraits.traitsEnumAllowed) ∧
    BuildTraits.normalize_enum (some "LOW") = "Low" ∧
    (∀ (v : Option String) (allowed : List String),
      BuildFilter.normalize_enum v allowed = "Unknown" ∨
      (BuildFilter.normalize_enum v allowed ∈ allowed ∧
       BuildFilter.normalize_enum v allowed = pyStrip (collapseWs (v.getD "")))) ∧
    BuildFilter.normalize_moisture_use (some "Low") = "Low" := by
  refine ⟨?_, by decide, ?_, by decide⟩
  · intro v
    simp only [BuildTraits.normalize_enum]
    split_ifs with h1 h2
    · left; rfl
    · right; simpa using h2
    · left; rfl
  · intro v allowed
    simp only [BuildFilter.normalize_enum]
    split_ifs with h1 h2
    · left; rfl
    · right; exact ⟨by simpa using h2, rfl⟩
    · left; rfl

/-- C5 (confirmed): duration classification — "Annual, sometimes
Perennial" yields primary "Perennial" and secondary set
{"Annual", "Perennial"}; whenever the primary classification is not
"Unknown" it is a member of the secondary set; and the presence of
"perennial" as a substring forces primary "Perennial" regardless of the
other matches (the fixed priority order). -/
theorem duration_classification :
    BuildFilter.normalize_duration_primary (some "Annual, sometimes Perennial") =
      "Perennial" ∧
    (∀ d, d ∈ BuildFilter.split_duration_set (some "Annual, sometimes Perennial") ↔
      (d = "Perennial" ∨ d = "Annual")) ∧
    (∀ raw : Option String,
      BuildFilter.normalize_duration_primary raw ≠ "Unknown" →
      BuildFilter.normalize_duration_primary raw ∈
        BuildFilter.split_duration_set raw) ∧
    (∀ raw : String, pyContains (pyLower raw) "perennial" = true →
      BuildFilter.normalize_duration_primary (some raw) = "Perennial") := by
  refine ⟨rfl, ?_, ?_, ?_⟩
  · intro d
    show d ∈ ["Perennial", "Annual"] ↔ _
    simp
  · intro raw h
    cases raw with
    | none => exact absurd rfl h
    | some s =>
      simp only [BuildFilter.normalize_duration_primary,
        BuildFilter.split_duration_set, Option.getD_some] at h ⊢
      cases ht : pyTruthy (some s) with
      | false => simp only [ht] at h; simp at h
      | true =>
        simp only [ht] at h ⊢
        by_cases hp : pyContains (pyLower s) "perennial" = true
        · simp [hp]
        · have hp2 : pyContains (pyLower s) "perennial" = false := by
            rwa [Bool.not_eq_true] at hp
          by_cases hb : pyContains (pyLower s) "biennial" = true
          · simp [hp2, hb]
          · have hb2 : pyContains (pyLower s) "biennial" = false := by
              rwa [Bool.not_eq_true] at hb
            by_cases ha : pyContains (pyLower s) "annual" = true
            · simp [hp2, hb2, ha]
            · have ha2 : pyContains (pyLower s) "annual" = false := by
                rwa [Bool.not_eq_true] at ha
              simp [hp2, hb2, ha2] at h
  · intro raw hcont
    have hne : raw ≠ "" := by
      intro e
      rw [e] at hcont
      exact absurd hcont (by decide)
    have he : raw.isEmpty = false := by
      cases hh : raw.isEmpty with
      | false => rfl
      | true => exact absurd ((String.isEmpty_iff raw).mp hh) hne
    simp [BuildFilter.normalize_duration_primary, pyTruthy, he, hcont]

/-- C5 (witness): the primary-in-secondary and perennial-priority parts of
`duration_classification` instantiated at concrete inputs. -/
theorem duration_classification_witness :
    BuildFilter.normalize_duration_primary (some "biennial plant") ∈
      BuildFilter.split_duration_set (some "biennial plant") ∧
    BuildFilter.normalize_duration_primary (some "Annual or Perennial") =
      "Perennial" :=
  ⟨duration_classification.2.2.1 (some "biennial plant") (by decide),
   duration_classification.2.2.2 "Annual or Perennial" (by decide)⟩

/-- C6 (code bug): the family-based evergreen inference is meant to strip
a leading "x" hybrid marker (the source's own comment says so), but
`family.removeprefix("x")` discards its result, so "xtaxaceae" — which the
claim says maps to "Yes" via the stripped "taxaceae" — yields "Unknown",
while the unprefixed "taxaceae" yields "Yes". -/
theorem seasonal_interest_hybrid_not_stripped :
    BuildFilter.normalize_seasonal_interest (some "xtaxaceae") = some "Unknown" ∧
    BuildFilter.normalize_seasonal_interest (some "taxaceae") = some "Yes" := by
  refine ⟨by decide, by decide⟩

/-- C9 (confirmed): the tri-state mappers are defined (as 1/0/2) exactly on
"Yes"/"No"/"Unknown" and fall through to Python None on anything else; and
since `normalize_unknown` only ever returns one of those three strings,
every value they produce from it is defined and lies in {0, 1, 2}. -/
theorem tri_state_mappers_safe :
    (∀ v : String, v ≠ "Yes" → v ≠ "No" → v ≠ "Unknown" →
      BuildFilter.showy_bloomer v = none ∧
      BuildFilter.fall_interest v = none ∧
      BuildFilter.evergreen v = none) ∧
    (∀ x : Option String, ∃ r, r ≤ 2 ∧
      BuildFilter.showy_bloomer (BuildFilter.normalize_unknown x) = some r ∧
      BuildFilter.fall_interest (BuildFilter.normalize_unknown x) = some r ∧
      BuildFilter.evergreen (BuildFilter.normalize_unknown x) = some r) := by
  constructor
  · intro v h1 h2 h3
    simp [BuildFilter.showy_bloomer, BuildFilter.fall_interest,
      BuildFilter.evergreen, h1, h2, h3]
  · intro x
    rcases normalize_unknown_range x with h | h | h
    · exact ⟨1, by omega, by rw [h]; decide, by rw [h]; decide, by rw [h]; decide⟩
    · exact ⟨0, by omega, by rw [h]; decide, by rw [h]; decide, by rw [h]; decide⟩
    · exact ⟨2, by omega, by rw [h]; decide, by rw [h]; decide, by rw [h]; decide⟩

/-- C9 (witness): the fall-through case of `tri_state_mappers_safe`
instantiated at the string "Maybe". -/
theorem tri_state_mappers_safe_witness :
    BuildFilter.showy_bloomer "Maybe" = none ∧
    BuildFilter.fall_interest "Maybe" = none ∧
    BuildFilter.evergreen "Maybe" = none :=
  tri_state_mappers_safe.1 "Maybe" (by decide) (by decide) (by decide)

/-- C1 (counterexample): the claim says both resolvers prefer an
observation from the "Direct Trait Lookup" section regardless of
timestamps; but `fetch_latest_kv_map` orders only by non-emptiness and
`fetched_at`, so given a direct-section observation and a newer
other-section one it returns the newer one, while `fetch_latest_kv`
returns the direct-section one as claimed. -/
theorem map_resolver_ignores_direct_section :
    fetch_latest_kv_map [obsDirectOld, obsOtherNew] "Duration" =
      some obsOtherNew ∧
    obsDirectOld.«section» = "Direct Trait Lookup" ∧
    obsOtherNew.«section» = "Characteristics" ∧
    obsDirectOld.trait_name = "Duration" ∧
    fetch_latest_kv [obsDirectOld, obsOtherNew] ["Duration"] "Duration" =
      some obsDirectOld := by
  refine ⟨by decide, rfl, rfl, rfl, by decide⟩

/-- C1 (amended): each resolver returns at most one observation per trait
name (an `Option`), and the returned observation is rank-maximal among the
observations of that trait name — `fetch_latest_kv` under the full
three-tier order (direct-lookup section, then non-empty value, then latest
fetched_at), but `fetch_latest_kv_map` only under the two-tier order
(non-empty value, then latest fetched_at) with no section preference. -/
theorem resolvers_return_rank_maximal
    (obs : List Obs) (trait_names : List String) (t : String) (o : Obs)
    (ho : o ∈ obs) (hname : o.trait_name = t) :
    (trait_names.contains t = true →
      ∃ c, fetch_latest_kv obs trait_names t = some c ∧ c ∈ obs ∧
        c.trait_name = t ∧ keyLtB (keyTraits c) (keyTraits o) = false) ∧
    (filterIndexTraitNames.contains t = true →
      ∃ c, fetch_latest_kv_map obs t = some c ∧ c ∈ obs ∧
        c.trait_name = t ∧ keyLtB (keyMap c) (keyMap o) = false) := by
  have hofilt : o ∈ obs.filter (fun x => x.trait_name == t) := by
    rw [List.mem_filter]
    exact ⟨ho, by simp [hname]⟩
  constructor
  · intro hreq
    rcases pickBest_max keyTraits (obs.filter (fun x => x.trait_name == t)) o
      hofilt with ⟨c, h1, h2, h3⟩
    have h2m := List.mem_filter.mp h2
    refine ⟨c, ?_, h2m.1, by simpa using h2m.2, h3⟩
    have hmem : t ∈ trait_names := by simpa using hreq
    simp [fetch_latest_kv, hmem, h1]
  · intro hreq
    rcases pickBest_max keyMap (obs.filter (fun x => x.trait_name == t)) o
      hofilt with ⟨c, h1, h2, h3⟩
    have h2m := List.mem_filter.mp h2
    refine ⟨c, ?_, h2m.1, by simpa using h2m.2, h3⟩
    have hmem : t ∈ filterIndexTraitNames := by simpa using hreq
    simp [fetch_latest_kv_map, hmem, h1]

/-- C1 (witness): `resolvers_return_rank_maximal` instantiated at the
two-observation store, with all hypotheses discharged concretely. -/
theorem resolvers_return_rank_maximal_witness :
    (∃ c, fetch_latest_kv [obsDirectOld, obsOtherNew] ["Duration"] "Duration" =
        some c ∧ c ∈ [obsDirectOld, obsOtherNew] ∧ c.trait_name = "Duration" ∧
        keyLtB (keyTraits c) (keyTraits obsDirectOld) = false) ∧
    (∃ c, fetch_latest_kv_map [obsDirectOld, obsOtherNew] "Duration" =
        some c ∧ c ∈ [obsDirectOld, obsOtherNew] ∧ c.trait_name = "Duration" ∧
        keyLtB (keyMap c) (keyMap obsDirectOld) = false) := by
  have h := resolvers_return_rank_maximal [obsDirectOld, obsOtherNew]
    ["Duration"] "Duration" obsDirectOld (by decide) rfl
  exact ⟨h.1 (by decide), h.2 (by decide)⟩

/-- C8 (counterexample): with commit batch size 30 and 30 symbols, the
claim says both drivers commit inside the loop exactly at index 30 (the
only positive multiple of 30); build_filter_index does, but
build_traits_normalized commits at index 25 and not at 30, because its
condition reads `i % commit_every == 25`. -/
theorem traits_commit_schedule_counterexample :
    traitsCommitSchedule 30 30 = [25] ∧
    filterCommitSchedule 30 30 = [30] := by
  constructor <;> decide

/-- C8 (amended): inside the symbol loop, build_filter_index's driver
commits exactly at the 1-based indices that are positive multiples of the
commit batch size N, while build_traits_normalized's driver commits
exactly at the indices congruent to 25 modulo N; both issue one further
unconditional commit at run end. -/
theorem commit_schedule_characterization (n N i : Nat) :
    (i ∈ filterCommitSchedule n N ↔ 1 ≤ i ∧ i ≤ n ∧ i % N = 0) ∧
    (i ∈ traitsCommitSchedule n N ↔ 1 ≤ i ∧ i ≤ n ∧ i % N = 25) := by
  constructor <;>
  · simp only [filterCommitSchedule, traitsCommitSchedule, List.mem_filter,
      List.mem_map, List.mem_range, beq_iff_eq]
    constructor
    · rintro ⟨⟨a, ha, rfl⟩, hm⟩
      exact ⟨by omega, by omega, hm⟩
    · rintro ⟨h1, h2, hm⟩
      exact ⟨⟨i - 1, by omega, by omega⟩, hm⟩

/-- C10 (confirmed): the derived filter-index record does not depend on
the resolved "Family" trait observation: two resolved-trait maps that
agree on every key other than "Family" produce the same record — the
family-based evergreen inference is computed in the loop but never passed
to the upsert, and `is_evergreen` depends only on "Leaf Retention". -/
theorem filter_index_independent_of_family
    (canonical : Canonical) (kv1 kv2 : String → Option String)
    (hp hc : Nat) (h : ∀ k, k ≠ "Family" → kv1 k = kv2 k) :
    deriveFilterCore canonical kv1 hp hc =
    deriveFilterCore canonical kv2 hp hc := by
  simp only [deriveFilterCore]
  rw [h "Group" (by decide), h "Growth Habits" (by decide),
    h "Native Status" (by decide), h "Duration" (by decide),
    h "Shade Tolerance" (by decide), h "Moisture Use" (by decide),
    h "Bloom Period" (by decide), h "Flower Conspicuous" (by decide),
    h "Fall Conspicuous" (by decide), h "Leaf Retention" (by decide)]

/-- C10 (witness): `filter_index_independent_of_family` applied to a map
holding only a "Family" value versus the empty map. -/
theorem filter_index_independent_of_family_witness :
    deriveFilterCore canonicalEmpty kvFamilyTaxaceae 0 0 =
    deriveFilterCore canonicalEmpty kvEmpty 0 0 :=
  filter_index_independent_of_family canonicalEmpty kvFamilyTaxaceae kvEmpty 0 0
    (fun k hk => by simp [kvFamilyTaxaceae, kvEmpty, hk])

/-- C7 (confirmed): per-symbol derivation plus upsert is idempotent for
both pipelines: after the invariant that keys are unique, running twice on
the same observations preserves key uniqueness; every lookup after two
runs at timestamps t1 then t2 equals the lookup after a single run at t2;
and the rows written by runs at different timestamps agree on every field
except the timestamp (`NormRow.stripTime` / `FilterRow.core`). -/
theorem pipeline_upserts_idempotent
    (symbol : String) (kvT : String → Option (Option String))
    (canonical : Canonical) (kvF : String → Option String)
    (hp hc : Nat) (t1 t2 : Nat)
    (tblT : List ((String × String) × NormRow))
    (tblF : List (String × FilterRow))
    (hT : (tableKeys tblT).Nodup) (hF : (tableKeys tblF).Nodup) :
    ((tableKeys (processSymbolTraits symbol kvT t2
        (processSymbolTraits symbol kvT t1 tblT))).Nodup ∧
     (∀ k, lookupRow k (processSymbolTraits symbol kvT t2
          (processSymbolTraits symbol kvT t1 tblT)) =
        lookupRow k (processSymbolTraits symbol kvT t2 tblT)) ∧
     (∀ k, (lookupRow k (processSymbolTraits symbol kvT t1 tblT)).map
          NormRow.stripTime =
        (lookupRow k (processSymbolTraits symbol kvT t2 tblT)).map
          NormRow.stripTime)) ∧
    ((tableKeys (processSymbolFilter symbol canonical kvF hp hc t2
        (processSymbolFilter symbol canonical kvF hp hc t1 tblF))).Nodup ∧
     (∀ k, lookupRow k (processSymbolFilter symbol canonical kvF hp hc t2
          (processSymbolFilter symbol canonical kvF hp hc t1 tblF)) =
        lookupRow k (processSymbolFilter symbol canonical kvF hp hc t2 tblF)) ∧
     (∀ k, (lookupRow k
          (processSymbolFilter symbol canonical kvF hp hc t1 tblF)).map
          FilterRow.core =
        (lookupRow k
          (processSymbolFilter symbol canonical kvF hp hc t2 tblF)).map
          FilterRow.core)) := by
  have hlast : ∀ (k : String × String) (t : Nat),
      lastEntry k (traitEntries symbol kvT t) =
        (lastEntry k (traitEntriesCore symbol kvT)).map
          (fun f => mkNormRow f t) := by
    intro k t
    exact lastEntry_map (fun f => mkNormRow f t) k (traitEntriesCore symbol kvT)
  refine ⟨⟨?_, ?_, ?_⟩, ?_, ?_, ?_⟩
  · exact nodup_tableKeys_runUpserts _ _ (nodup_tableKeys_runUpserts _ _ hT)
  · intro k
    simp only [processSymbolTraits, lookupRow_runUpserts, hlast]
    cases lastEntry k (traitEntriesCore symbol kvT) with
    | some f => simp
    | none => simp
  · intro k
    simp only [processSymbolTraits, lookupRow_runUpserts, hlast]
    cases lastEntry k (traitEntriesCore symbol kvT) with
    | some f => simp [NormRow.stripTime, mkNormRow]
    | none => simp
  · exact nodup_tableKeys_upsertRow _ _ _ (nodup_tableKeys_upsertRow _ _ _ hF)
  · intro k
    simp only [processSymbolFilter, lookupRow_upsertRow]
    by_cases hk : symbol = k <;> simp [hk]
  · intro k
    simp only [processSymbolFilter, lookupRow_upsertRow]
    by_cases hk : symbol = k <;> simp [hk]

/-- C7 (witness): `pipeline_upserts_idempotent` applied to empty initial
tables with a one-entry resolved dict, timestamps 0 and 1. -/
theorem pipeline_upserts_idempotent_witness :
    (tableKeys (processSymbolTraits "ABCD" kvTraitsSample 1
        (processSymbolTraits "ABCD" kvTraitsSample 0 []))).Nodup ∧
    lookupRow ("ABCD", "bloom_color")
        (processSymbolTraits "ABCD" kvTraitsSample 1
          (processSymbolTraits "ABCD" kvTraitsSample 0 [])) =
      lookupRow ("ABCD", "bloom_color")
        (processSymbolTraits "ABCD" kvTraitsSample 1 []) := by
  have h := pipeline_upserts_idempotent "ABCD" kvTraitsSample canonicalEmpty
    kvEmpty 0 0 0 1 [] [] (by simp [tableKeys]) (by simp [tableKeys])
  exact ⟨h.1.1, h.1.2.1 ("ABCD", "bloom_color")⟩

end NativePlants

